import Mathlib

/-
  Verification development for the durable multi-transport client
  (src/mettle/src/util/network_client.c).

  The C unit is embedded shallowly:
  * C strings become `List Char`; `strstr`, `strsep` and `strcasecmp`
    become the structural functions below.
  * The registry / cursor / parser functions (`parse_server`,
    `network_client_add_server`, `network_client_remove_servers`,
    `choose_next_server`, `get_curr_server`, `get_curr_service`) become
    pure functions over explicit state records.
  * The event-driven connection state machine (`reconnect_cb`,
    `resolving_cb`, `connect_tcp_cb`, `on_poll`, `set_closed`,
    `network_client_close`) becomes a step function over an `NC` record
    driven by an event alphabet (timer firing, resolution completion,
    transport-connect completion, socket-readiness notification, close
    request).  Ghost fields record callback invocations (with the
    connection state observed at the moment of invocation), attempted
    targets, TLS session allocations and TLS session releases.
  * libuv requests that the code issues are tracked in explicit
    outstanding-operation counters; a completion event is only
    deliverable when the corresponding request is outstanding.
  * Out-of-range array indexing is undefined behavior in the C; the
    embedding totalizes those reads with `Option` (`none` marks the UB
    case) and the spots are noted in comments.
-/

namespace NetworkClient

/- ## C string primitives over List Char -/

/-- `strstr`-style search: split `s` at the first occurrence of `pat`,
returning the part before the occurrence and the part after it. -/
def splitAtSub (pat : List Char) : List Char → Option (List Char × List Char)
  | [] => if pat.isPrefixOf ([] : List Char) then some ([], []) else none
  | c :: rest =>
    if pat.isPrefixOf (c :: rest) then some ([], (c :: rest).drop pat.length)
    else (splitAtSub pat rest).map (fun p => (c :: p.1, p.2))

/-- `strsep`-style split on a single delimiter character; consecutive
delimiters yield empty fields, and the result list is never empty. -/
def splitOnChar (sep : Char) : List Char → List (List Char)
  | [] => [[]]
  | c :: rest =>
    if c = sep then [] :: splitOnChar sep rest
    else
      match splitOnChar sep rest with
      | [] => [[c]]
      | g :: gs => (c :: g) :: gs

/-- `strcasecmp`-style case-insensitive equality (ASCII case folding is
what the C library performs; `Char.toLower` agrees on the schemes used). -/
def eqNoCase (a b : List Char) : Bool :=
  a.map Char.toLower = b.map Char.toLower

/- ## Protocols and servers -/

/-- enum network_client_proto. -/
inductive Proto
  | udp
  | tcp
  | tls
deriving DecidableEq, Repr

/-- str_to_proto: scan proto_list (udp, tcp, tls) case-insensitively;
an unrecognized scheme yields tcp. -/
def strToProto (p : List Char) : Proto :=
  if eqNoCase p ("udp".toList) then Proto.udp
  else if eqNoCase p ("tcp".toList) then Proto.tcp
  else if eqNoCase p ("tls".toList) then Proto.tls
  else Proto.tcp

/-- struct network_client_server. -/
structure Server where
  uri : List Char
  proto : Proto
  host : List Char
  services : List (List Char)
deriving DecidableEq, Repr

/-- parse_server: grammar `[scheme "://"] host [":" service ("," service)*]`.
The scheme is everything before the first `"://"` (defaulting to tcp when
absent), the host is everything up to the first `:` after the scheme, and
the mandatory service list is comma-split by `strsep`.  A URI with no `:`
after the host fails (`log_error("%s service unspecified", ...)`); the C
then releases the partial server via `server_free`.  Internal allocation
failures (strdup / reallocarray inside add_server_service) also make the
C return -1 with the partial server released, which this pure model
conflates with the `none` result. -/
def parseServer (uri : List Char) : Option Server :=
  let schemeSplit :=
    match splitAtSub ("://".toList) uri with
    | none => (("tcp".toList), uri)
    | some p => p
  let proto := schemeSplit.1
  let hostport := schemeSplit.2
  match splitAtSub ([':']) hostport with
  | none => none
  | some hs =>
    some { uri := uri, proto := strToProto proto, host := hs.1,
           services := splitOnChar ',' hs.2 }

/- ## Registry with the reallocarray failure mode -/

/-- The servers array of struct network_client: `none` models a NULL
`nc->servers` pointer, `some l` a live array holding `l`.  `numServers`
mirrors `nc->num_servers`, which the C tracks separately from the
pointer. -/
structure Registry where
  servers : Option (List Server)
  numServers : Nat
deriving DecidableEq, Repr

/-- network_client_add_server.  `allocOk` tells whether the initial
`reallocarray` growing `nc->servers` succeeds; on failure the C stores
the NULL result back into `nc->servers` (losing the previous array)
before returning -1.  On a parse failure the grown array keeps its
previous entries and `num_servers` is not incremented.  (The C parses
into a slot whose memory reallocarray left uninitialized — undefined
behavior not modelled; the slot is treated as fresh.) -/
def addServer (allocOk : Bool) (reg : Registry) (uri : List Char) :
    Int × Registry :=
  if allocOk = false then (-1, { reg with servers := none })
  else
    match parseServer uri with
    | none => (-1, { reg with servers := some (reg.servers.getD []) })
    | some srv =>
      (0, { servers := some (reg.servers.getD [] ++ [srv]),
            numServers := reg.numServers + 1 })

/-- network_client_remove_servers: frees every server and the array,
sets `nc->servers = NULL` and `nc->num_servers = 0`.  It does not touch
`nc->curr_server` or `nc->curr_service`. -/
def removeServers (_reg : Registry) : Int × Registry :=
  (0, { servers := none, numServers := 0 })

/- ## The round-robin cursor (choose_next_server) -/

/-- The cursor arithmetic of choose_next_server, factored over the
server list: `c = (curr_server, curr_service)`.  The C reads
`get_curr_server` (NULL when the array pointer is NULL; an out-of-range
`curr_server` is undefined behavior, modelled by `none`), advances the
service index while `curr_service < num_services - 1` (int arithmetic;
with `num_services ≥ 0` the Nat truncated subtraction agrees), and
otherwise resets the service index and advances the server index with
wrap-around — only when more than one server exists. -/
def chooseNextCursor (servers : List Server) (c : Nat × Nat) : Nat × Nat :=
  let bump : Nat :=
    if servers.length > 1 then
      (if c.1 + 1 ≥ servers.length then 0 else c.1 + 1)
    else c.1
  match (if servers.isEmpty then none else servers.get? c.1) with
  | some srv =>
    if c.2 < srv.services.length - 1 then (c.1, c.2 + 1)
    else (bump, 0)
  | none => (bump, 0)

/-- The same advance arithmetic over the list of per-server service
counts only; `chooseNextCursor_eq_advanceC` ties it to the source
function. -/
def advanceC (cs : List Nat) (c : Nat × Nat) : Nat × Nat :=
  let bump : Nat :=
    if cs.length > 1 then
      (if c.1 + 1 ≥ cs.length then 0 else c.1 + 1)
    else c.1
  match cs.get? c.1 with
  | some k =>
    if c.2 < k - 1 then (c.1, c.2 + 1)
    else (bump, 0)
  | none => (bump, 0)

/-- Per-server service counts of a registry. -/
def counts (servers : List Server) : List Nat :=
  servers.map (fun s => s.services.length)

theorem chooseNextCursor_eq_advanceC (servers : List Server) (c : Nat × Nat) :
    chooseNextCursor servers c = advanceC (counts servers) c := by
  unfold chooseNextCursor advanceC counts
  simp only [List.get?_eq_getElem?, List.getElem?_map, List.length_map]
  cases h : servers[c.1]? with
  | none =>
    cases servers with
    | nil => simp
    | cons a l => simp [h]
  | some srv =>
    have hne : servers.isEmpty = false := by
      cases servers with
      | nil => simp at h
      | cons a l => rfl
    simp [h, hne]

/-- A valid cursor into a list of service counts. -/
def ValidC (cs : List Nat) (c : Nat × Nat) : Prop :=
  ∃ k, cs.get? c.1 = some k ∧ c.2 < k

instance (cs : List Nat) (c : Nat × Nat) : Decidable (ValidC cs c) := by
  unfold ValidC
  exact inferInstance

/-- One full round-robin cycle length. -/
def totalC (cs : List Nat) : Nat := cs.sum

/-- Rank of a cursor in the round-robin cycle: the number of pairs that
precede it in (server, service) lexicographic order. -/
def rankC (cs : List Nat) (c : Nat × Nat) : Nat :=
  (cs.take c.1).sum + c.2

/- ## The connection state machine -/

/-- The anonymous state enum of struct network_client. -/
inductive ConnState
  | connected
  | resolving
  | connecting
  | closed
deriving DecidableEq, Repr

/-- TLS_READ_AGAIN of the libtls API used by the source. -/
def tlsReadAgain : Int := -2

/-- TLS_WRITE_AGAIN of the libtls API used by the source. -/
def tlsWriteAgain : Int := -3

/-- struct network_client, with ghost instrumentation.  `servers`,
`currServer`, `currService`, `state`, `tlsState` mirror the C fields;
`addrinfo` and `tlsNonNull` mirror the nullness of `nc->addrinfo` and
`nc->tls`; `pendingResolve` / `pendingConnect` count outstanding
`uv_getaddrinfo` / `uv_tcp_connect` requests and `pollActive` records
that `uv_poll_start` has been called (the source never stops the poll
watcher).  Ghost fields: `tlsAlive` (a TLS session is allocated and not
yet freed), `tlsAllocs` / `tlsFrees` (number of `tls_client` /
`tls_free` calls), `attempts` (the (host, service) targets passed to
resolution, in order), `connectCbLog` (one entry per connect-callback
invocation recording the state observed at the moment of the call), and
`closeCbCount` (number of close-callback invocations).  The three
callback slots are taken as registered. -/
structure NC where
  servers : List Server
  currServer : Nat
  currService : Nat
  state : ConnState
  addrinfo : Bool
  tlsNonNull : Bool
  tlsAlive : Bool
  tlsAllocs : Nat
  tlsFrees : Nat
  tlsState : Int
  pendingResolve : Nat
  pendingConnect : Nat
  pollActive : Bool
  attempts : List (List Char × List Char)
  connectCbLog : List ConnState
  closeCbCount : Nat
deriving DecidableEq, Repr

/-- get_curr_server: NULL array pointer gives NULL; an out-of-range
`curr_server` is undefined behavior in the C (modelled `none`). -/
def getCurrServer (nc : NC) : Option Server :=
  if nc.servers.isEmpty then none else nc.servers.get? nc.currServer

/-- get_curr_service: indexes the current server's service array; any
out-of-range index is undefined behavior in the C (modelled `none`). -/
def getCurrService (nc : NC) : Option (List Char) :=
  if nc.servers.isEmpty then none
  else (nc.servers.get? nc.currServer).bind fun s => s.services.get? nc.currService

/-- Protocol of the current target. -/
def currProto (nc : NC) : Option Proto :=
  (getCurrServer nc).map Server.proto

/-- choose_next_server, acting on the client record. -/
def chooseNextServer (nc : NC) : NC :=
  let c := chooseNextCursor nc.servers (nc.currServer, nc.currService)
  { nc with currServer := c.1, currService := c.2 }

/-- set_closed: sets the state to closed, frees and NULLs `nc->addrinfo`,
frees `nc->tls` when non-NULL and zeroes `nc->tls_state` — but does NOT
NULL the `nc->tls` field — and invokes the close callback. -/
def setClosed (nc : NC) : NC :=
  { nc with
    state := ConnState.closed,
    addrinfo := false,
    tlsFrees := if nc.tlsNonNull then nc.tlsFrees + 1 else nc.tlsFrees,
    tlsAlive := if nc.tlsNonNull then false else nc.tlsAlive,
    tlsState := if nc.tlsNonNull then 0 else nc.tlsState,
    closeCbCount := nc.closeCbCount + 1 }

/-- reconnect_cb: a timer firing.  Returns immediately unless the state
is closed and the registry is non-empty; otherwise advances the selector,
logs the target, issues asynchronous resolution for (host, service) and
moves to resolving.  (The C dereferences the chosen server and service
unconditionally; an empty result is out-of-range undefined behavior,
totalized here with `[]`.) -/
def reconnectCb (nc : NC) : NC :=
  if nc.state ≠ ConnState.closed ∨ nc.servers.length = 0 then nc
  else
    let nc := chooseNextServer nc
    let host := ((getCurrServer nc).map Server.host).getD []
    let svc := (getCurrService nc).getD []
    { nc with
      state := ConnState.resolving
      pendingResolve := nc.pendingResolve + 1
      attempts := nc.attempts ++ [(host, svc)] }

/-- resolving_cb: completion of a `uv_getaddrinfo` request.  On failure
it logs and calls set_closed.  On success it stores the resolution
result and branches on the current protocol: UDP initializes the socket
and fires the connect callback (connect_udp, which returns 0), after
which the state becomes connected; TCP/TLS issues the transport connect
(connect_tcp, assumed to return 0) and the state becomes connecting.
A protocol read from an out-of-range server is undefined behavior in
the C (`none`: no transition modelled). -/
def resolvingCb (nc : NC) (ok : Bool) : NC :=
  let srvProto := currProto nc
  let nc := { nc with pendingResolve := nc.pendingResolve - 1 }
  if ok = false then setClosed nc
  else
    let nc := { nc with addrinfo := true }
    match srvProto with
    | some Proto.udp =>
      let nc := { nc with connectCbLog := nc.connectCbLog ++ [nc.state] }
      { nc with state := ConnState.connected }
    | some Proto.tcp =>
      { nc with
        state := ConnState.connecting
        pendingConnect := nc.pendingConnect + 1 }
    | some Proto.tls =>
      { nc with
        state := ConnState.connecting
        pendingConnect := nc.pendingConnect + 1 }
    | none => nc

/-- connect_tcp_cb: completion of a `uv_tcp_connect` request, with
`first` the result of the initial `tls_connect_socket` handshake step on
the TLS branch.  On failure it logs and calls set_closed.  On success,
for TCP the state becomes connected and the connect callback fires; for
any other protocol the C takes the TLS branch: it allocates a client TLS
session (allocation and `uv_fileno` assumed to succeed), performs the
first handshake step, and starts the readiness poll.  No connect
callback fires on the TLS branch. -/
def connectTcpCb (nc : NC) (ok : Bool) (first : Int) : NC :=
  let srvProto := currProto nc
  let nc := { nc with pendingConnect := nc.pendingConnect - 1 }
  if ok = false then setClosed nc
  else
    match srvProto with
    | some Proto.tcp =>
      let nc := { nc with state := ConnState.connected }
      { nc with connectCbLog := nc.connectCbLog ++ [nc.state] }
    | _ =>
      { nc with
        tlsNonNull := true
        tlsAlive := true
        tlsAllocs := nc.tlsAllocs + 1
        tlsState := first
        pollActive := true }

/-- on_poll: a socket-readiness notification, with `res` the result of
the handshake step `tls_connect_socket` performed inside the callback.
The step runs only while the state is connecting and the previous step
asked for a retry; success moves the state to connected (without
invoking any callback), a fatal -1 result is only logged — the
`network_client_close(nc)` call is commented out in the source — and
any other result leaves the state unchanged. -/
def onPoll (nc : NC) (res : Int) : NC :=
  if nc.state = ConnState.connecting ∧
      (nc.tlsState = tlsReadAgain ∨ nc.tlsState = tlsWriteAgain) then
    if res = 0 then { nc with tlsState := res, state := ConnState.connected }
    else { nc with tlsState := res }
  else nc

/-- network_client_close: fails (-1) unless connected; otherwise starts
the asynchronous `uv_close`, whose on_close callback runs set_closed
(modelled as one step). -/
def networkClientClose (nc : NC) : Int × NC :=
  if nc.state ≠ ConnState.connected then (-1, nc)
  else (0, setClosed nc)

/-- Events the loop can deliver to one client: a reconnect-timer
firing, completion of the outstanding resolution (with success flag),
completion of the outstanding transport connect (success flag plus the
first TLS handshake-step result), a readiness notification (with the
handshake-step result computed inside on_poll), and an owner-issued
close request. -/
inductive Event
  | timerFire
  | resolveDone (ok : Bool)
  | connectDone (ok : Bool) (first : Int)
  | pollReadable (res : Int)
  | closeReq
deriving DecidableEq, Repr

/-- One dispatch of the loop.  Completion events are deliverable only
when the corresponding request is outstanding (a readiness notification
only once the poll watcher was started). -/
def step (nc : NC) : Event → Option NC
  | Event.timerFire => some (reconnectCb nc)
  | Event.resolveDone ok =>
    if nc.pendingResolve = 0 then none else some (resolvingCb nc ok)
  | Event.connectDone ok first =>
    if nc.pendingConnect = 0 then none else some (connectTcpCb nc ok first)
  | Event.pollReadable res =>
    if nc.pollActive then some (onPoll nc res) else none
  | Event.closeReq => some (networkClientClose nc).2

/-- A freshly constructed client (network_client(): calloc-zeroed,
state = closed) whose registry already holds `ss`. -/
def initNC (ss : List Server) : NC :=
  { servers := ss, currServer := 0, currService := 0,
    state := ConnState.closed, addrinfo := false, tlsNonNull := false,
    tlsAlive := false, tlsAllocs := 0, tlsFrees := 0, tlsState := 0,
    pendingResolve := 0, pendingConnect := 0, pollActive := false,
    attempts := [], connectCbLog := [], closeCbCount := 0 }

/-- Client states reachable from construction with registry `ss` under
loop dispatch. -/
inductive Reachable (ss : List Server) : NC → Prop
  | init : Reachable ss (initNC ss)
  | next {nc nc' : NC} {e : Event} (h : Reachable ss nc)
      (hs : step nc e = some nc') : Reachable ss nc'

/-- A well-formed registry: non-empty, and every server parsed with at
least one service (parse_server guarantees the latter). -/
def WF (ss : List Server) : Prop :=
  ss ≠ [] ∧ ∀ s ∈ ss, s.services ≠ []

/-- Number of outstanding handshake steps: one when a readiness
notification would actually resume the handshake. -/
def handshakePending (nc : NC) : Nat :=
  if nc.pollActive ∧ nc.state = ConnState.connecting ∧
      (nc.tlsState = tlsReadAgain ∨ nc.tlsState = tlsWriteAgain) then 1 else 0

/-- Outstanding asynchronous operations of the kinds the unit issues:
resolution, transport connect, handshake step. -/
def outstanding (nc : NC) : Nat :=
  nc.pendingResolve + nc.pendingConnect + handshakePending nc

/-- Run a list of loop events in order; `none` when some event was not
deliverable. -/
def runEvents (nc : NC) : List Event → Option NC
  | [] => some nc
  | e :: es => (step nc e).bind fun nc2 => runEvents nc2 es

/- ## The inductive invariant of reachable client states -/

/-- A cursor that addresses an existing server and service. -/
def cursorOK (servers : List Server) (c : Nat × Nat) : Prop :=
  ∃ srv, servers.get? c.1 = some srv ∧ c.2 < srv.services.length

theorem chooseNextCursor_ok (servers : List Server)
    (hsvc : ∀ s ∈ servers, s.services ≠ []) (c : Nat × Nat)
    (hc : cursorOK servers c) :
    cursorOK servers (chooseNextCursor servers c) := by
  obtain ⟨srv, hget, hlt⟩ := hc
  have hc1 : c.1 < servers.length := (List.get?_eq_some.mp hget).1
  have hne : servers.isEmpty = false := by
    cases servers with
    | nil => simp at hc1
    | cons a l => rfl
  have hidx : ∀ i, i < servers.length → cursorOK servers (i, 0) := by
    intro i hi
    have hs := List.get?_eq_get (l := servers) (n := i) hi
    exact ⟨servers.get ⟨i, hi⟩, hs,
      List.length_pos.mpr (hsvc _ (List.get_mem servers _ _))⟩
  have hbump : (if servers.length > 1 then
      (if c.1 + 1 ≥ servers.length then 0 else c.1 + 1) else c.1) <
      servers.length := by
    split_ifs <;> omega
  unfold chooseNextCursor
  simp only [hne, Bool.false_eq_true, if_false, hget]
  split
  · exact ⟨srv, hget, by omega⟩
  · exact hidx _ hbump

/-- The inductive invariant carried by every reachable client state
(for a well-formed fixed registry). -/
structure Inv (nc : NC) : Prop where
  wfsvc : ∀ s ∈ nc.servers, s.services ≠ []
  cursor : cursorOK nc.servers (nc.currServer, nc.currService)
  prLe : nc.pendingResolve ≤ 1
  pcLe : nc.pendingConnect ≤ 1
  prState : nc.pendingResolve ≠ 0 → nc.state = ConnState.resolving
  pcState : nc.pendingConnect ≠ 0 →
    nc.state = ConnState.connecting ∧ nc.tlsState = 0
  pcProto : nc.pendingConnect ≠ 0 →
    currProto nc = some Proto.tcp ∨ currProto nc = some Proto.tls
  tlsNZ : nc.tlsState ≠ 0 →
    nc.state = ConnState.connecting ∧ nc.tlsAlive = true ∧ nc.tlsNonNull = true
  tlsProto : nc.tlsAlive = true →
    (nc.state = ConnState.connecting ∨ nc.state = ConnState.connected) ∧
      currProto nc = some Proto.tls
  aliveNN : nc.tlsAlive = true → nc.tlsNonNull = true

theorem inv_init (ss : List Server) (hwf : WF ss) : Inv (initNC ss) := by
  obtain ⟨hne, hsvc⟩ := hwf
  refine ⟨hsvc, ?_, ?_, ?_, ?_, ?_, ?_, ?_, ?_, ?_⟩ <;>
    first
    | (intro h; simp [initNC] at h)
    | skip
  · cases ss with
    | nil => exact absurd rfl hne
    | cons s0 l =>
      refine ⟨s0, rfl, ?_⟩
      have hmem := hsvc s0 (by simp)
      show 0 < s0.services.length
      exact List.length_pos.mpr hmem
  · exact Nat.zero_le 1
  · exact Nat.zero_le 1

theorem inv_setClosed {m : NC} (hwf : ∀ s ∈ m.servers, s.services ≠ [])
    (hcur : cursorOK m.servers (m.currServer, m.currService))
    (hpr : m.pendingResolve = 0) (hpc : m.pendingConnect = 0)
    (hnz : m.tlsState ≠ 0 → m.tlsNonNull = true)
    (hann : m.tlsAlive = true → m.tlsNonNull = true) :
    Inv (setClosed m) := by
  have halive : (setClosed m).tlsAlive = false := by
    show (if m.tlsNonNull = true then false else m.tlsAlive) = false
    by_cases hn : m.tlsNonNull = true
    · simp [hn]
    · have hfa : m.tlsAlive = false := by
        cases ha : m.tlsAlive
        · rfl
        · exact absurd (hann ha) hn
      simp [hn, hfa]
  have htls : (setClosed m).tlsState = 0 := by
    show (if m.tlsNonNull = true then 0 else m.tlsState) = 0
    by_cases hn : m.tlsNonNull = true
    · simp [hn]
    · have h0 : m.tlsState = 0 := by
        by_contra hne
        exact hn (hnz hne)
      simp [hn, h0]
  refine ⟨hwf, hcur, ?_, ?_, ?_, ?_, ?_, ?_, ?_, ?_⟩
  · show m.pendingResolve ≤ 1
    omega
  · show m.pendingConnect ≤ 1
    omega
  · intro hne
    exact absurd hpr hne
  · intro hne
    exact absurd hpc hne
  · intro hne
    exact absurd hpc hne
  · intro hne
    exact absurd htls hne
  · intro ha
    rw [halive] at ha
    exact Bool.noConfusion ha
  · intro ha
    rw [halive] at ha
    exact Bool.noConfusion ha

theorem inv_reconnectCb {nc : NC} (h : Inv nc) : Inv (reconnectCb nc) := by
  unfold reconnectCb
  split
  · exact h
  · rename_i hg
    push_neg at hg
    obtain ⟨hst, _hlen⟩ := hg
    have hpr : nc.pendingResolve = 0 := by
      by_contra hne
      have hr := h.prState hne
      rw [hst] at hr
      exact absurd hr (by decide)
    have hpc : nc.pendingConnect = 0 := by
      by_contra hne
      have hr := (h.pcState hne).1
      rw [hst] at hr
      exact absurd hr (by decide)
    have htls : nc.tlsState = 0 := by
      by_contra hne
      have hr := (h.tlsNZ hne).1
      rw [hst] at hr
      exact absurd hr (by decide)
    have halive : nc.tlsAlive = false := by
      cases ha : nc.tlsAlive
      · rfl
      · have hr := (h.tlsProto ha).1
        rw [hst] at hr
        rcases hr with hr | hr <;> exact absurd hr (by decide)
    have hcur := chooseNextCursor_ok nc.servers h.wfsvc
      (nc.currServer, nc.currService) h.cursor
    refine ⟨h.wfsvc, ?_, ?_, ?_, ?_, ?_, ?_, ?_, ?_, ?_⟩
    · simpa [chooseNextServer] using hcur
    · show nc.pendingResolve + 1 ≤ 1
      omega
    · show nc.pendingConnect ≤ 1
      exact h.pcLe
    · intro _
      rfl
    · intro hne
      exact absurd hpc hne
    · intro hne
      exact absurd hpc hne
    · intro hne
      exact absurd htls hne
    · intro ha
      have ha2 : nc.tlsAlive = true := ha
      rw [halive] at ha2
      exact Bool.noConfusion ha2
    · intro ha
      have ha2 : nc.tlsAlive = true := ha
      rw [halive] at ha2
      exact Bool.noConfusion ha2

theorem inv_resolvingCb {nc : NC} (h : Inv nc) (hpr : nc.pendingResolve ≠ 0)
    (ok : Bool) : Inv (resolvingCb nc ok) := by
  have hst : nc.state = ConnState.resolving := h.prState hpr
  have hpc : nc.pendingConnect = 0 := by
    by_contra hne
    have hr := (h.pcState hne).1
    rw [hst] at hr
    exact absurd hr (by decide)
  have htls : nc.tlsState = 0 := by
    by_contra hne
    have hr := (h.tlsNZ hne).1
    rw [hst] at hr
    exact absurd hr (by decide)
  have halive : nc.tlsAlive = false := by
    cases ha : nc.tlsAlive
    · rfl
    · have hr := (h.tlsProto ha).1
      rw [hst] at hr
      rcases hr with hr | hr <;> exact absurd hr (by decide)
  obtain ⟨srv, hget0, hsl⟩ := h.cursor
  have hget : nc.servers.get? nc.currServer = some srv := hget0
  have hne2 : nc.servers.isEmpty = false := by
    cases hs : nc.servers with
    | nil =>
      rw [hs] at hget
      exact absurd hget (by simp)
    | cons a l => rfl
  have hproto : currProto nc = some srv.proto := by
    unfold currProto getCurrServer
    rw [hne2]
    simp [hget]
    exact ⟨srv, by simpa using hget, rfl⟩
  cases ok with
  | false =>
    show Inv (setClosed { nc with pendingResolve := nc.pendingResolve - 1 })
    refine inv_setClosed h.wfsvc h.cursor ?_ hpc ?_ ?_
    · show nc.pendingResolve - 1 = 0
      have := h.prLe
      omega
    · intro hne
      exact absurd htls hne
    · intro ha
      have ha2 : nc.tlsAlive = true := ha
      rw [halive] at ha2
      exact Bool.noConfusion ha2
  | true =>
    cases hp : srv.proto with
    | udp =>
      rw [hp] at hproto
      simp only [resolvingCb, hproto]
      refine ⟨h.wfsvc, h.cursor, ?_, h.pcLe, ?_, ?_, ?_, ?_, ?_, ?_⟩
      · show nc.pendingResolve - 1 ≤ 1
        have := h.prLe
        omega
      · intro hne
        have hne2 : nc.pendingResolve - 1 ≠ 0 := hne
        have := h.prLe
        omega
      · intro hne
        exact absurd hpc hne
      · intro hne
        exact absurd hpc hne
      · intro hne
        exact absurd htls hne
      · intro ha
        have ha2 : nc.tlsAlive = true := ha
        rw [halive] at ha2
        exact Bool.noConfusion ha2
      · intro ha
        have ha2 : nc.tlsAlive = true := ha
        rw [halive] at ha2
        exact Bool.noConfusion ha2
    | tcp =>
      rw [hp] at hproto
      simp only [resolvingCb, hproto]
      refine ⟨h.wfsvc, h.cursor, ?_, ?_, ?_, ?_, ?_, ?_, ?_, ?_⟩
      · show nc.pendingResolve - 1 ≤ 1
        have := h.prLe
        omega
      · show nc.pendingConnect + 1 ≤ 1
        omega
      · intro hne
        have hne2 : nc.pendingResolve - 1 ≠ 0 := hne
        have := h.prLe
        omega
      · intro _
        exact ⟨rfl, htls⟩
      · intro _
        exact Or.inl hproto
      · intro hne
        exact absurd htls hne
      · intro ha
        have ha2 : nc.tlsAlive = true := ha
        rw [halive] at ha2
        exact Bool.noConfusion ha2
      · intro ha
        have ha2 : nc.tlsAlive = true := ha
        rw [halive] at ha2
        exact Bool.noConfusion ha2
    | tls =>
      rw [hp] at hproto
      simp only [resolvingCb, hproto]
      refine ⟨h.wfsvc, h.cursor, ?_, ?_, ?_, ?_, ?_, ?_, ?_, ?_⟩
      · show nc.pendingResolve - 1 ≤ 1
        have := h.prLe
        omega
      · show nc.pendingConnect + 1 ≤ 1
        omega
      · intro hne
        have hne2 : nc.pendingResolve - 1 ≠ 0 := hne
        have := h.prLe
        omega
      · intro _
        exact ⟨rfl, htls⟩
      · intro _
        exact Or.inr hproto
      · intro hne
        exact absurd htls hne
      · intro ha
        have ha2 : nc.tlsAlive = true := ha
        rw [halive] at ha2
        exact Bool.noConfusion ha2
      · intro ha
        have ha2 : nc.tlsAlive = true := ha
        rw [halive] at ha2
        exact Bool.noConfusion ha2

theorem inv_connectTcpCb {nc : NC} (h : Inv nc) (hpcne : nc.pendingConnect ≠ 0)
    (ok : Bool) (first : Int) : Inv (connectTcpCb nc ok first) := by
  obtain ⟨hst, htls⟩ := h.pcState hpcne
  have hpr : nc.pendingResolve = 0 := by
    by_contra hne
    have hr := h.prState hne
    rw [hst] at hr
    exact absurd hr (by decide)
  cases ok with
  | false =>
    show Inv (setClosed { nc with pendingConnect := nc.pendingConnect - 1 })
    refine inv_setClosed h.wfsvc h.cursor hpr ?_ ?_ h.aliveNN
    · show nc.pendingConnect - 1 = 0
      have := h.pcLe
      omega
    · intro hne
      exact absurd htls hne
  | true =>
    rcases h.pcProto hpcne with hproto | hproto
    · have halive : nc.tlsAlive = false := by
        cases ha : nc.tlsAlive
        · rfl
        · have hr := (h.tlsProto ha).2
          rw [hproto] at hr
          exact absurd hr (by decide)
      simp only [connectTcpCb, hproto]
      refine ⟨h.wfsvc, h.cursor, ?_, ?_, ?_, ?_, ?_, ?_, ?_, ?_⟩
      · show nc.pendingResolve ≤ 1
        omega
      · show nc.pendingConnect - 1 ≤ 1
        have := h.pcLe
        omega
      · intro hne
        exact absurd hpr hne
      · intro hne
        have hne2 : nc.pendingConnect - 1 ≠ 0 := hne
        have := h.pcLe
        omega
      · intro hne
        have hne2 : nc.pendingConnect - 1 ≠ 0 := hne
        have := h.pcLe
        omega
      · intro hne
        exact absurd htls hne
      · intro ha
        have ha2 : nc.tlsAlive = true := ha
        rw [halive] at ha2
        exact Bool.noConfusion ha2
      · intro ha
        have ha2 : nc.tlsAlive = true := ha
        rw [halive] at ha2
        exact Bool.noConfusion ha2
    · simp only [connectTcpCb, hproto]
      refine ⟨h.wfsvc, h.cursor, ?_, ?_, ?_, ?_, ?_, ?_, ?_, ?_⟩
      · show nc.pendingResolve ≤ 1
        omega
      · show nc.pendingConnect - 1 ≤ 1
        have := h.pcLe
        omega
      · intro hne
        exact absurd hpr hne
      · intro hne
        have hne2 : nc.pendingConnect - 1 ≠ 0 := hne
        have := h.pcLe
        omega
      · intro hne
        have hne2 : nc.pendingConnect - 1 ≠ 0 := hne
        have := h.pcLe
        omega
      · intro _
        exact ⟨hst, rfl, rfl⟩
      · intro _
        exact ⟨Or.inl hst, hproto⟩
      · intro _
        rfl

theorem inv_onPoll {nc : NC} (h : Inv nc) (res : Int) : Inv (onPoll nc res) := by
  unfold onPoll
  split
  · rename_i hg
    obtain ⟨hst, hagain⟩ := hg
    have htlsne : nc.tlsState ≠ 0 := by
      rcases hagain with ha | ha <;> rw [ha] <;> decide
    obtain ⟨_, halive, hnn⟩ := h.tlsNZ htlsne
    have hpc : nc.pendingConnect = 0 := by
      by_contra hne
      exact htlsne (h.pcState hne).2
    have hpr : nc.pendingResolve = 0 := by
      by_contra hne
      have hr := h.prState hne
      rw [hst] at hr
      exact absurd hr (by decide)
    split
    · rename_i hres
      refine ⟨h.wfsvc, h.cursor, ?_, ?_, ?_, ?_, ?_, ?_, ?_, ?_⟩
      · show nc.pendingResolve ≤ 1
        omega
      · show nc.pendingConnect ≤ 1
        omega
      · intro hne
        exact absurd hpr hne
      · intro hne
        exact absurd hpc hne
      · intro hne
        exact absurd hpc hne
      · intro hne
        exact absurd hres hne
      · intro _
        exact ⟨Or.inr rfl, (h.tlsProto halive).2⟩
      · intro _
        exact hnn
    · rename_i hres
      refine ⟨h.wfsvc, h.cursor, ?_, ?_, ?_, ?_, ?_, ?_, ?_, ?_⟩
      · show nc.pendingResolve ≤ 1
        omega
      · show nc.pendingConnect ≤ 1
        omega
      · intro hne
        exact absurd hpr hne
      · intro hne
        exact absurd hpc hne
      · intro hne
        exact absurd hpc hne
      · intro _
        exact ⟨hst, halive, hnn⟩
      · intro _
        exact ⟨Or.inl hst, (h.tlsProto halive).2⟩
      · intro _
        exact hnn
  · exact h

theorem inv_close {nc : NC} (h : Inv nc) : Inv (networkClientClose nc).2 := by
  unfold networkClientClose
  split
  · exact h
  · rename_i hg
    push_neg at hg
    have hpr : nc.pendingResolve = 0 := by
      by_contra hne
      have hr := h.prState hne
      rw [hg] at hr
      exact absurd hr (by decide)
    have hpc : nc.pendingConnect = 0 := by
      by_contra hne
      have hr := (h.pcState hne).1
      rw [hg] at hr
      exact absurd hr (by decide)
    show Inv (setClosed nc)
    refine inv_setClosed h.wfsvc h.cursor hpr hpc ?_ h.aliveNN
    intro hne
    exact (h.tlsNZ hne).2.2

theorem inv_step {nc nc2 : NC} {e : Event} (h : Inv nc)
    (hs : step nc e = some nc2) : Inv nc2 := by
  cases e with
  | timerFire =>
    simp only [step, Option.some.injEq] at hs
    rw [← hs]
    exact inv_reconnectCb h
  | resolveDone ok =>
    simp only [step] at hs
    split at hs
    · exact absurd hs (by simp)
    · rename_i hpr
      simp only [Option.some.injEq] at hs
      rw [← hs]
      exact inv_resolvingCb h hpr ok
  | connectDone ok first =>
    simp only [step] at hs
    split at hs
    · exact absurd hs (by simp)
    · rename_i hpc
      simp only [Option.some.injEq] at hs
      rw [← hs]
      exact inv_connectTcpCb h hpc ok first
  | pollReadable res =>
    simp only [step] at hs
    split at hs
    · simp only [Option.some.injEq] at hs
      rw [← hs]
      exact inv_onPoll h res
    · exact absurd hs (by simp)
  | closeReq =>
    simp only [step, Option.some.injEq] at hs
    rw [← hs]
    exact inv_close h

theorem reachable_inv {ss : List Server} {nc : NC} (hwf : WF ss)
    (hr : Reachable ss nc) : Inv nc := by
  induction hr with
  | init => exact inv_init ss hwf
  | next _ hs ih => exact inv_step ih hs

theorem inv_outstanding {nc : NC} (h : Inv nc) : outstanding nc ≤ 1 := by
  unfold outstanding handshakePending
  by_cases hpr : nc.pendingResolve = 0
  · by_cases hpc : nc.pendingConnect = 0
    · split <;> omega
    · have hts := (h.pcState hpc).2
      have hcond : ¬(nc.pollActive = true ∧ nc.state = ConnState.connecting ∧
          (nc.tlsState = tlsReadAgain ∨ nc.tlsState = tlsWriteAgain)) := by
        rintro ⟨_, _, hx | hx⟩ <;> (rw [hts] at hx; revert hx; decide)
      rw [if_neg hcond]
      have := h.pcLe
      omega
  · have hst := h.prState hpr
    have hpc : nc.pendingConnect = 0 := by
      by_contra hne
      have hr := (h.pcState hne).1
      rw [hst] at hr
      exact absurd hr (by decide)
    have hcond : ¬(nc.pollActive = true ∧ nc.state = ConnState.connecting ∧
        (nc.tlsState = tlsReadAgain ∨ nc.tlsState = tlsWriteAgain)) := by
      rintro ⟨_, hc, _⟩
      rw [hst] at hc
      exact absurd hc (by decide)
    rw [if_neg hcond]
    have := h.prLe
    omega

/- ## Round-robin cycle arithmetic -/

theorem sum_take_le : ∀ (cs : List Nat) (i j : Nat), i ≤ j →
    (cs.take i).sum ≤ (cs.take j).sum
  | [], _, _, _ => by simp
  | _ :: _, 0, _, _ => by simp
  | k :: t, i + 1, j + 1, h => by
    simp only [List.take_succ_cons, List.sum_cons]
    have := sum_take_le t i j (by omega)
    omega

theorem sum_take_get : ∀ (cs : List Nat) (i k : Nat), cs.get? i = some k →
    (cs.take (i + 1)).sum = (cs.take i).sum + k
  | [], i, k, h => by simp at h
  | c :: t, 0, k, h => by
    simp only [List.get?_cons_zero, Option.some.injEq] at h
    simp [h]
  | c :: t, i + 1, k, h => by
    simp only [List.take_succ_cons, List.sum_cons]
    have := sum_take_get t i k (by simpa using h)
    omega

theorem rank_lt (cs : List Nat) {c : Nat × Nat} (hc : ValidC cs c) :
    rankC cs c < totalC cs := by
  obtain ⟨k, hget, hlt⟩ := hc
  have hlen : c.1 < cs.length := (List.get?_eq_some.mp hget).1
  have h1 := sum_take_get cs c.1 k hget
  have h2 := sum_take_le cs (c.1 + 1) cs.length (by omega)
  rw [List.take_length] at h2
  unfold rankC totalC
  omega

theorem rank_inj (cs : List Nat) {c d : Nat × Nat} (hc : ValidC cs c)
    (hd : ValidC cs d) (h : rankC cs c = rankC cs d) : c = d := by
  obtain ⟨k, hck, hck2⟩ := hc
  obtain ⟨m, hdm, hdm2⟩ := hd
  unfold rankC at h
  rcases Nat.lt_trichotomy c.1 d.1 with hlt | heq | hgt
  · have h1 := sum_take_get cs c.1 k hck
    have h2 := sum_take_le cs (c.1 + 1) d.1 hlt
    omega
  · rw [heq] at h
    have h2 : c.2 = d.2 := by omega
    cases c
    cases d
    simp only [Prod.mk.injEq]
    exact ⟨heq, h2⟩
  · have h1 := sum_take_get cs d.1 m hdm
    have h2 := sum_take_le cs (d.1 + 1) c.1 hgt
    omega

theorem advanceC_ok (cs : List Nat) (hpos : ∀ k ∈ cs, 0 < k) {c : Nat × Nat}
    (hc : ValidC cs c) : ValidC cs (advanceC cs c) := by
  obtain ⟨k, hget, hlt⟩ := hc
  have hc1 : c.1 < cs.length := (List.get?_eq_some.mp hget).1
  have hidx : ∀ i, i < cs.length → ValidC cs (i, 0) := by
    intro i hi
    have hs := List.get?_eq_get (l := cs) (n := i) hi
    exact ⟨cs.get ⟨i, hi⟩, hs, hpos _ (List.get_mem cs _ _)⟩
  have hbump : (if cs.length > 1 then
      (if c.1 + 1 ≥ cs.length then 0 else c.1 + 1) else c.1) < cs.length := by
    split_ifs <;> omega
  unfold advanceC
  simp only [hget]
  split
  · exact ⟨k, hget, by omega⟩
  · exact hidx _ hbump

theorem rank_advanceC (cs : List Nat) (hpos : ∀ k ∈ cs, 0 < k) {c : Nat × Nat}
    (hc : ValidC cs c) :
    rankC cs (advanceC cs c) = (rankC cs c + 1) % totalC cs := by
  obtain ⟨k, hget, hlt⟩ := hc
  have hc1 : c.1 < cs.length := (List.get?_eq_some.mp hget).1
  have hS := sum_take_get cs c.1 k hget
  unfold advanceC
  simp only [hget]
  split
  · rename_i hsvc
    have hv2 : ValidC cs (c.1, c.2 + 1) := ⟨k, hget, by omega⟩
    have h2 := rank_lt cs hv2
    unfold rankC at *
    simp only [] at h2 ⊢
    rw [Nat.mod_eq_of_lt (by omega)]
    omega
  · rename_i hsvc
    by_cases hlen : cs.length > 1
    · by_cases hwrap : c.1 + 1 ≥ cs.length
      · have htake : cs.take (c.1 + 1) = cs := by
          have hle : cs.length ≤ c.1 + 1 := by omega
          exact List.take_of_length_le hle
        have hTeq : totalC cs = (cs.take c.1).sum + k := by
          unfold totalC
          rw [htake] at hS
          omega
        have hrk : rankC cs c + 1 = totalC cs := by
          unfold rankC
          omega
        simp only [hlen, hwrap, if_true, ge_iff_le]
        rw [hrk, Nat.mod_self]
        unfold rankC
        simp
      · have hv2 : ValidC cs (c.1 + 1, 0) := by
          have hi : c.1 + 1 < cs.length := by omega
          have hs := List.get?_eq_get (l := cs) (n := c.1 + 1) hi
          exact ⟨cs.get ⟨c.1 + 1, hi⟩, hs, hpos _ (List.get_mem cs _ _)⟩
        have h2 := rank_lt cs hv2
        simp only [hlen, hwrap, if_true, if_false]
        unfold rankC at *
        simp only [] at h2 ⊢
        rw [Nat.mod_eq_of_lt (by omega)]
        omega
    · have hone : cs.length = 1 := by omega
      have h0 : c.1 = 0 := by omega
      have htake : cs.take (c.1 + 1) = cs := by
        exact List.take_of_length_le (by omega)
      have hTeq : totalC cs = (cs.take c.1).sum + k := by
        unfold totalC
        rw [htake] at hS
        omega
      have hrk : rankC cs c + 1 = totalC cs := by
        unfold rankC
        omega
      simp only [hlen, if_false]
      rw [hrk, Nat.mod_self]
      unfold rankC
      rw [h0]
      simp

theorem advanceC_iter (cs : List Nat) (hpos : ∀ k ∈ cs, 0 < k) {c : Nat × Nat}
    (hc : ValidC cs c) : ∀ m : Nat,
    ValidC cs ((fun x => advanceC cs x)^[m] c) ∧
    rankC cs ((fun x => advanceC cs x)^[m] c) =
      (rankC cs c + m) % totalC cs := by
  intro m
  induction m with
  | zero =>
    refine ⟨by simpa using hc, ?_⟩
    simp only [Function.iterate_zero, id_eq, Nat.add_zero]
    exact (Nat.mod_eq_of_lt (rank_lt cs hc)).symm
  | succ n ih =>
    obtain ⟨hv, hrk⟩ := ih
    rw [Function.iterate_succ_apply']
    refine ⟨advanceC_ok cs hpos hv, ?_⟩
    rw [rank_advanceC cs hpos hv, hrk]
    have h1 : rankC cs c + (n + 1) = rankC cs c + n + 1 := by omega
    rw [h1]
    exact (Nat.mod_modEq (rankC cs c + n) (totalC cs)).add_right 1

theorem mod_shift_inj {T a m1 m2 : Nat} (h1 : m1 < T) (h2 : m2 < T)
    (h : (a + m1) % T = (a + m2) % T) : m1 = m2 := by
  have hm : m1 ≡ m2 [MOD T] := Nat.ModEq.add_left_cancel' a h
  unfold Nat.ModEq at hm
  rw [Nat.mod_eq_of_lt h1, Nat.mod_eq_of_lt h2] at hm
  exact hm

theorem advanceC_cycle (cs : List Nat) (hpos : ∀ k ∈ cs, 0 < k)
    {c p : Nat × Nat} (hc : ValidC cs c) (hp : ValidC cs p) :
    ∃! m, m < totalC cs ∧ (fun x => advanceC cs x)^[m + 1] c = p := by
  have hr : rankC cs p < totalC cs := rank_lt cs hp
  have hT : 0 < totalC cs := by omega
  have key : ∀ m, ((fun x => advanceC cs x)^[m + 1] c = p ↔
      (rankC cs c + 1 + m) % totalC cs = rankC cs p) := by
    intro m
    obtain ⟨hv, hrk⟩ := advanceC_iter cs hpos hc (m + 1)
    constructor
    · intro h
      rw [← h, hrk]
      have : rankC cs c + (m + 1) = rankC cs c + 1 + m := by omega
      rw [this]
    · intro h
      apply rank_inj cs hv hp
      rw [hrk]
      have heq : rankC cs c + (m + 1) = rankC cs c + 1 + m := by omega
      rw [heq, h]
  set a := rankC cs c + 1 with ha
  set r := rankC cs p with hrdef
  have hb : a % totalC cs < totalC cs := Nat.mod_lt _ hT
  have hex : (a + (r + totalC cs - a % totalC cs) % totalC cs) % totalC cs
      = r := by
    have hmod := (Nat.mod_modEq a (totalC cs)).add_right
      ((r + totalC cs - a % totalC cs) % totalC cs)
    rw [← hmod]
    rcases le_or_lt (a % totalC cs) r with hle | hlt2
    · have hm : (r + totalC cs - a % totalC cs) % totalC cs
          = r - a % totalC cs := by
        have hstep : r + totalC cs - a % totalC cs
            = (r - a % totalC cs) + totalC cs := by omega
        rw [hstep, Nat.add_mod_right]
        exact Nat.mod_eq_of_lt (by omega)
      rw [hm]
      have h3 : a % totalC cs + (r - a % totalC cs) = r := by omega
      rw [h3]
      exact Nat.mod_eq_of_lt hr
    · have hm : (r + totalC cs - a % totalC cs) % totalC cs
          = r + totalC cs - a % totalC cs := Nat.mod_eq_of_lt (by omega)
      rw [hm]
      have h3 : a % totalC cs + (r + totalC cs - a % totalC cs)
          = r + totalC cs := by omega
      rw [h3, Nat.add_mod_right]
      exact Nat.mod_eq_of_lt hr
  refine ⟨(r + totalC cs - a % totalC cs) % totalC cs,
    ⟨Nat.mod_lt _ hT, ?_⟩, ?_⟩
  · rw [key]
    exact hex
  · rintro m2 ⟨hm2, heq2⟩
    rw [key] at heq2
    exact mod_shift_inj hm2 (Nat.mod_lt _ hT) (by rw [heq2, hex])

/- ## Registry/cursor operation sequences -/

/-- The registry-and-cursor fragment of struct network_client, for
examining sequences of registry operations and scheduler ticks
(allocations taken as succeeding). -/
structure RegClient where
  servers : List Server
  currServer : Nat
  currService : Nat
deriving DecidableEq, Repr

/-- Operations affecting the registry and cursor: `add` is
network_client_add_server (appends on parse success, no cursor change),
`clear` is network_client_remove_servers (empties the registry and —
as in the source — leaves `curr_server`/`curr_service` untouched),
`tick` is the cursor effect of reconnect_cb firing with state closed
(no-op on an empty registry, otherwise choose_next_server). -/
inductive RegOp
  | add (uri : List Char)
  | clear
  | tick
deriving DecidableEq, Repr

def applyRegOp (rc : RegClient) : RegOp → RegClient
  | RegOp.add uri =>
    match parseServer uri with
    | some srv => { rc with servers := rc.servers ++ [srv] }
    | none => rc
  | RegOp.clear => { rc with servers := [] }
  | RegOp.tick =>
    if rc.servers.length = 0 then rc
    else
      let c := chooseNextCursor rc.servers (rc.currServer, rc.currService)
      { rc with currServer := c.1, currService := c.2 }

def runRegOps (rc : RegClient) (ops : List RegOp) : RegClient :=
  ops.foldl applyRegOp rc

/-- A freshly constructed client: no servers, cursor (0, 0). -/
def initRegClient : RegClient :=
  { servers := [], currServer := 0, currService := 0 }

/- ## Concrete demonstration servers and registries -/

def udpA : Server :=
  { uri := "udp://a:53".toList, proto := Proto.udp, host := "a".toList,
    services := ["53".toList] }

def tcpB : Server :=
  { uri := "tcp://b:80".toList, proto := Proto.tcp, host := "b".toList,
    services := ["80".toList] }

def tlsC : Server :=
  { uri := "tls://c:443".toList, proto := Proto.tls, host := "c".toList,
    services := ["443".toList] }

/-- The demonstration servers are exactly what parse_server produces
from their URIs. -/
theorem demo_servers_parsed :
    parseServer ("udp://a:53".toList) = some udpA ∧
    parseServer ("tcp://b:80".toList) = some tcpB ∧
    parseServer ("tls://c:443".toList) = some tlsC := by
  refine ⟨?_, ?_, ?_⟩ <;> rfl

/-- The servers array of a fresh client (`nc->servers == NULL`). -/
def emptyRegistry : Registry := { servers := none, numServers := 0 }

/-- A registry holding one server, built through add_server. -/
def regOneServer : Registry :=
  (addServer true emptyRegistry ("udp://a:53".toList)).2

/-- One scheduler tick followed by a failing resolution: the connection
attempt of one reconnect period when every attempt fails. -/
def failRound (nc : NC) : NC := resolvingCb (reconnectCb nc) false

/-- The two-server client of the failover scenario: `udp://a:53`
registered first, `tcp://b:80` second. -/
def ncAB : NC := initNC [udpA, tcpB]

/-- Building the two-server registry through add_server yields exactly
[udpA, tcpB]. -/
theorem ncAB_registry_built :
    (addServer true (addServer true emptyRegistry
      ("udp://a:53".toList)).2 ("tcp://b:80".toList)).2.servers =
      some [udpA, tcpB] := by
  rfl

/-- One failing round from the first-server cursor position: the
selector advances to the second server before the attempt, so the
attempt targets b/80. -/
theorem failRound_stepA (n : Nat) (A : List (List Char × List Char)) :
    failRound { ncAB with currServer := 0, closeCbCount := n, attempts := A } =
      { ncAB with
        currServer := 1
        closeCbCount := n + 1
        attempts := A ++ [("b".toList, "80".toList)] } := by
  rfl

/-- One failing round from the second-server cursor position: wraps to
the first server, so the attempt targets a/53. -/
theorem failRound_stepB (n : Nat) (A : List (List Char × List Char)) :
    failRound { ncAB with currServer := 1, closeCbCount := n, attempts := A } =
      { ncAB with
        currServer := 0
        closeCbCount := n + 1
        attempts := A ++ [("a".toList, "53".toList)] } := by
  rfl

/-- Closed form of k failing rounds of the two-server scenario. -/
theorem failRound_iter (k : Nat) :
    (fun x => failRound x)^[k] ncAB =
      { ncAB with
        currServer := if k % 2 = 0 then 0 else 1
        closeCbCount := k
        attempts := (List.range k).map (fun i =>
          if i % 2 = 0 then ("b".toList, "80".toList)
          else ("a".toList, "53".toList)) } := by
  induction k with
  | zero => rfl
  | succ n ih =>
    rw [Function.iterate_succ_apply', ih]
    by_cases hn : n % 2 = 0
    · have hn1 : (n + 1) % 2 = 1 := by omega
      rw [if_pos hn, failRound_stepA n]
      rw [hn1]
      simp only [List.range_succ, List.map_append, List.map_cons,
        List.map_nil, hn, if_pos rfl]
      rfl
    · have hn1 : (n + 1) % 2 = 0 := by omega
      rw [if_neg hn, failRound_stepB n]
      rw [hn1]
      simp only [List.range_succ, List.map_append, List.map_cons,
        List.map_nil, hn, if_neg hn]
      rfl

/- ## Claims -/

/-- C1: on a TLS target, a successful transport connect leaves the
state Connecting without firing the connect callback (as the claim
requires), and a successful handshake step moves Connecting → Connected;
but the source never invokes the connect callback anywhere on the TLS
path (on_poll sets the state without calling it), so the callback log is
still empty after the handshake succeeds, against the claim that it
fires exactly once for the attempt. -/
theorem c1_no_connect_cb_on_tls_handshake_success :
    (runEvents (initNC [tlsC]) [Event.timerFire, Event.resolveDone true,
      Event.connectDone true tlsReadAgain]).map
      (fun nc => (nc.state, nc.connectCbLog)) =
      some (ConnState.connecting, []) ∧
    (runEvents (initNC [tlsC]) [Event.timerFire, Event.resolveDone true,
      Event.connectDone true tlsReadAgain, Event.pollReadable 0]).map
      (fun nc => (nc.state, nc.connectCbLog)) =
      some (ConnState.connected, []) :=
  ⟨rfl, rfl⟩

/-- C2: a fatal (non-retryable) TLS handshake failure leaves the client
in Connecting — the network_client_close call in on_poll is commented
out — and no close callback fires, stranding the client, against the
claim (and the spec's stated intent) that the state must become
Closed. -/
theorem c2_fatal_handshake_leaves_connecting :
    (runEvents (initNC [tlsC]) [Event.timerFire, Event.resolveDone true,
      Event.connectDone true tlsReadAgain, Event.pollReadable (-1)]).map
      (fun nc => (nc.state, nc.closeCbCount)) =
      some (ConnState.connecting, 0) :=
  rfl

/-- C3: add_server on a malformed URI (no service list) reports failure
and leaves the registry unchanged, but when the initial reallocarray
growing the servers array fails, the source overwrites `nc->servers`
with the NULL result before returning -1: the registry loses its
existing entries while `num_servers` still reads 1, against the claim
that the registry is unchanged on any failure. -/
theorem c3_alloc_failure_loses_servers :
    regOneServer.servers = some [udpA] ∧
    regOneServer.numServers = 1 ∧
    (addServer false regOneServer ("tcp://b:80".toList)).1 = -1 ∧
    (addServer false regOneServer ("tcp://b:80".toList)).2.servers = none ∧
    (addServer false regOneServer ("tcp://b:80".toList)).2.numServers = 1 ∧
    (addServer true regOneServer ("tcp://b".toList)).1 = -1 ∧
    (addServer true regOneServer ("tcp://b".toList)).2 = regOneServer := by
  decide

/-- C4 (counterexample): with `udp://a:53` registered first and
`tcp://b:80` second, the very first scheduler tick attempts b/80, not
the first-registered a/53, because choose_next_server advances the
cursor before the attempt is issued. -/
theorem c4_first_attempt_targets_b :
    (reconnectCb ncAB).attempts = [("b".toList, "80".toList)] ∧
    (("b".toList, "80".toList) : List Char × List Char) ≠
      ("a".toList, "53".toList) :=
  ⟨rfl, by decide⟩

/-- C4 (amended): with `udp://a:53` registered first and `tcp://b:80`
second, k failing rounds produce the attempt sequence b/80, a/53, b/80,
a/53, … — cycle length 2, starting at the second-registered endpoint
because the selector advances before the first attempt. -/
theorem c4_attempt_cycle (k : Nat) :
    ((fun x => failRound x)^[k] ncAB).attempts =
      (List.range k).map (fun i =>
        if i % 2 = 0 then ("b".toList, "80".toList)
        else ("a".toList, "53".toList)) := by
  rw [failRound_iter k]

/-- C5 (counterexample): in the reachable state just after resolution
succeeds on a TLS target, the state is Connecting and the current
protocol is TLS, yet no TLS session object is held (it is created only
at transport-connect completion) — refuting the claimed if-and-only-if
characterization. -/
theorem c5_no_session_in_early_connecting :
    (runEvents (initNC [tlsC]) [Event.timerFire, Event.resolveDone true]).map
      (fun nc => (nc.state, currProto nc, nc.tlsNonNull, nc.tlsAlive)) =
      some (ConnState.connecting, some Proto.tls, false, false) :=
  rfl

/-- C5 (amended): a live TLS session exists only if the current
protocol is TLS and the state is Connecting or Connected (the converse
fails: the session is created only at transport-connect completion);
and release is not exactly-once: set_closed frees the session without
clearing the `nc->tls` field, so a later transition to Closed frees it
a second time — one allocation but two frees on the demonstrated
trace. -/
theorem c5_amended_session_invariant (ss : List Server) (nc : NC)
    (hwf : WF ss) (hr : Reachable ss nc) :
    (nc.tlsAlive = true →
      (nc.state = ConnState.connecting ∨ nc.state = ConnState.connected) ∧
      currProto nc = some Proto.tls) ∧
    (runEvents (initNC [tlsC]) [Event.timerFire, Event.resolveDone true,
      Event.connectDone true tlsReadAgain, Event.pollReadable 0,
      Event.closeReq, Event.timerFire, Event.resolveDone false]).map
        (fun x => (x.tlsAllocs, x.tlsFrees)) = some (1, 2) :=
  ⟨(reachable_inv hwf hr).tlsProto, by decide⟩

/-- The client of a TLS target in mid-handshake (transport connect
completed, first handshake step asked to retry). -/
def ncTlsHandshaking : NC :=
  connectTcpCb (resolvingCb (reconnectCb (initNC [tlsC])) true) true
    tlsReadAgain

theorem ncTlsHandshaking_reachable : Reachable [tlsC] ncTlsHandshaking := by
  have h1 : step (initNC [tlsC]) Event.timerFire
      = some (reconnectCb (initNC [tlsC])) := rfl
  have h2 : step (reconnectCb (initNC [tlsC])) (Event.resolveDone true)
      = some (resolvingCb (reconnectCb (initNC [tlsC])) true) := rfl
  have h3 : step (resolvingCb (reconnectCb (initNC [tlsC])) true)
      (Event.connectDone true tlsReadAgain) = some ncTlsHandshaking := rfl
  exact Reachable.next (Reachable.next (Reachable.next Reachable.init h1) h2) h3

theorem c5_amended_witness :
    ((ncTlsHandshaking.state = ConnState.connecting ∨
      ncTlsHandshaking.state = ConnState.connected) ∧
      currProto ncTlsHandshaking = some Proto.tls) ∧
    (runEvents (initNC [tlsC]) [Event.timerFire, Event.resolveDone true,
      Event.connectDone true tlsReadAgain, Event.pollReadable 0,
      Event.closeReq, Event.timerFire, Event.resolveDone false]).map
        (fun x => (x.tlsAllocs, x.tlsFrees)) = some (1, 2) :=
  ⟨(c5_amended_session_invariant [tlsC] ncTlsHandshaking
      ⟨by decide, by decide⟩ ncTlsHandshaking_reachable).1 (by decide),
   (c5_amended_session_invariant [tlsC] ncTlsHandshaking
      ⟨by decide, by decide⟩ ncTlsHandshaking_reachable).2⟩

/-- The operation sequence that strands the cursor: two servers, one
tick (cursor moves to server 1), clear all servers, add one server. -/
def c6ops : List RegOp :=
  [RegOp.add ("udp://a:53".toList), RegOp.add ("udp://b:53".toList),
   RegOp.tick, RegOp.clear, RegOp.add ("udp://c:53".toList)]

/-- C6: after [add a; add b; tick; remove_servers; add c] the registry
holds one server but the cursor's server index is still 1 —
network_client_remove_servers never resets `curr_server`/`curr_service`,
so get_curr_server would read out of bounds, against the claimed
always-valid-cursor invariant. -/
theorem c6_stale_cursor_after_clear :
    (runRegOps initRegClient c6ops).servers.length = 1 ∧
    (runRegOps initRegClient c6ops).currServer = 1 ∧
    ¬ ((runRegOps initRegClient c6ops).currServer <
        (runRegOps initRegClient c6ops).servers.length) := by
  decide

/-- C7: round-robin correctness of choose_next_server.  From any valid
cursor, (a) the next c₁+…+cₙ advances hit every (server, service) pair
exactly once; (b) the selector leaves a server only when the current
service index is the server's last one (it exhausts a server's services
before advancing); (c) with a single server the server index never
changes. -/
theorem c7_round_robin (servers : List Server) (c : Nat × Nat)
    (hsvc : ∀ s ∈ servers, s.services ≠ [])
    (hc : ValidC (counts servers) c) :
    (∀ p, ValidC (counts servers) p →
      ∃! m, m < totalC (counts servers) ∧
        (fun x => chooseNextCursor servers x)^[m + 1] c = p) ∧
    (∀ d, ValidC (counts servers) d →
      (chooseNextCursor servers d).1 ≠ d.1 →
      ∃ k, (counts servers).get? d.1 = some k ∧ d.2 + 1 = k) ∧
    (servers.length = 1 → ∀ d, (chooseNextCursor servers d).1 = d.1) := by
  have hpos : ∀ k ∈ counts servers, 0 < k := by
    intro k hk
    unfold counts at hk
    simp only [List.mem_map] at hk
    obtain ⟨s, hs, hk2⟩ := hk
    rw [← hk2]
    exact List.length_pos.mpr (hsvc s hs)
  have hfun : (fun x => chooseNextCursor servers x)
      = (fun x => advanceC (counts servers) x) :=
    funext (fun x => chooseNextCursor_eq_advanceC servers x)
  refine ⟨?_, ?_, ?_⟩
  · intro p hp
    rw [hfun]
    exact advanceC_cycle (counts servers) hpos hc hp
  · intro d hd hne
    obtain ⟨k, hget, hlt⟩ := hd
    rw [chooseNextCursor_eq_advanceC servers d] at hne
    unfold advanceC at hne
    simp only [hget] at hne
    split at hne
    · exact absurd rfl hne
    · rename_i hsvc2
      exact ⟨k, hget, by omega⟩
  · intro h1 d
    unfold chooseNextCursor
    rw [h1]
    simp only [gt_iff_lt, Nat.lt_irrefl, if_false]
    split
    · split
      · rfl
      · rfl
    · rfl

theorem c7_round_robin_witness :
    (∀ p, ValidC (counts [udpA, tcpB]) p →
      ∃! m, m < totalC (counts [udpA, tcpB]) ∧
        (fun x => chooseNextCursor [udpA, tcpB] x)^[m + 1] (0, 0) = p) ∧
    (∀ d, ValidC (counts [udpA, tcpB]) d →
      (chooseNextCursor [udpA, tcpB] d).1 ≠ d.1 →
      ∃ k, (counts [udpA, tcpB]).get? d.1 = some k ∧ d.2 + 1 = k) ∧
    ([udpA, tcpB].length = 1 →
      ∀ d, (chooseNextCursor [udpA, tcpB] d).1 = d.1) :=
  c7_round_robin [udpA, tcpB] (0, 0) (by decide) (by decide)

/-- C8: a reconnect-timer firing is a no-op (the client record is
unchanged, so no state change, no cursor move, no logged attempt, no
issued request) whenever the state is not Closed or the registry is
empty; and in every reachable state of a well-formed client at most one
asynchronous operation — resolution, transport connect, or handshake
step — is outstanding. -/
theorem c8_tick_noop_and_single_op :
    (∀ nc : NC, (nc.state ≠ ConnState.closed ∨ nc.servers.length = 0) →
      reconnectCb nc = nc) ∧
    (∀ (ss : List Server) (nc : NC), WF ss → Reachable ss nc →
      outstanding nc ≤ 1) := by
  constructor
  · intro nc h
    unfold reconnectCb
    rw [if_pos h]
  · intro ss nc hwf hr
    exact inv_outstanding (reachable_inv hwf hr)

theorem c8_witness :
    reconnectCb { initNC [tlsC] with state := ConnState.connecting } =
      { initNC [tlsC] with state := ConnState.connecting } ∧
    outstanding ncTlsHandshaking ≤ 1 :=
  ⟨c8_tick_noop_and_single_op.1 _ (Or.inl (by decide)),
   c8_tick_noop_and_single_op.2 [tlsC] ncTlsHandshaking
     ⟨by decide, by decide⟩ ncTlsHandshaking_reachable⟩

/-- C9: whenever resolution completes with failure, the client ends in
Closed, the connect callback log is untouched (the callback is never
invoked for that attempt), and the close callback fires exactly once. -/
theorem c9_resolution_failure_closes (nc nc2 : NC)
    (hs : step nc (Event.resolveDone false) = some nc2) :
    nc2.state = ConnState.closed ∧
    nc2.connectCbLog = nc.connectCbLog ∧
    nc2.closeCbCount = nc.closeCbCount + 1 := by
  simp only [step] at hs
  split at hs
  · exact absurd hs (by simp)
  · simp only [Option.some.injEq] at hs
    rw [← hs]
    exact ⟨rfl, rfl, rfl⟩

theorem c9_witness :
    (resolvingCb (reconnectCb (initNC [udpA])) false).state =
      ConnState.closed ∧
    (resolvingCb (reconnectCb (initNC [udpA])) false).connectCbLog =
      (reconnectCb (initNC [udpA])).connectCbLog ∧
    (resolvingCb (reconnectCb (initNC [udpA])) false).closeCbCount =
      (reconnectCb (initNC [udpA])).closeCbCount + 1 :=
  c9_resolution_failure_closes (reconnectCb (initNC [udpA]))
    (resolvingCb (reconnectCb (initNC [udpA])) false) rfl

/-- C10: on a UDP target, resolution success invokes the connect
callback while the state is still Resolving (the log records Resolving
as the state observed during the call) and only afterwards sets
Connected; on a TCP target, transport-connect success sets Connected
first and then invokes the callback (the log records Connected). -/
theorem c10_connect_cb_ordering :
    (∀ nc nc2 : NC, nc.state = ConnState.resolving →
      currProto nc = some Proto.udp →
      step nc (Event.resolveDone true) = some nc2 →
      nc2.connectCbLog = nc.connectCbLog ++ [ConnState.resolving] ∧
      nc2.state = ConnState.connected) ∧
    (∀ (nc nc2 : NC) (first : Int), currProto nc = some Proto.tcp →
      step nc (Event.connectDone true first) = some nc2 →
      nc2.connectCbLog = nc.connectCbLog ++ [ConnState.connected] ∧
      nc2.state = ConnState.connected) := by
  constructor
  · intro nc nc2 hst hproto hs
    simp only [step] at hs
    split at hs
    · exact absurd hs (by simp)
    · simp only [Option.some.injEq] at hs
      rw [← hs]
      have hred : resolvingCb nc true =
          { nc with
            pendingResolve := nc.pendingResolve - 1
            addrinfo := true
            connectCbLog := nc.connectCbLog ++ [nc.state]
            state := ConnState.connected } := by
        unfold resolvingCb
        rw [hproto]
        rfl
      rw [hred, hst]
      exact ⟨rfl, rfl⟩
  · intro nc nc2 first hproto hs
    simp only [step] at hs
    split at hs
    · exact absurd hs (by simp)
    · simp only [Option.some.injEq] at hs
      rw [← hs]
      have hred : connectTcpCb nc true first =
          { nc with
            pendingConnect := nc.pendingConnect - 1
            state := ConnState.connected
            connectCbLog := nc.connectCbLog ++ [ConnState.connected] } := by
        unfold connectTcpCb
        rw [hproto]
        rfl
      rw [hred]
      exact ⟨rfl, rfl⟩

/-- The client of a TCP target awaiting transport-connect completion. -/
def ncTcpConnecting : NC := resolvingCb (reconnectCb (initNC [tcpB])) true

theorem c10_witness :
    ((resolvingCb (reconnectCb (initNC [udpA])) true).connectCbLog =
      (reconnectCb (initNC [udpA])).connectCbLog ++ [ConnState.resolving] ∧
     (resolvingCb (reconnectCb (initNC [udpA])) true).state =
      ConnState.connected) ∧
    ((connectTcpCb ncTcpConnecting true 0).connectCbLog =
      ncTcpConnecting.connectCbLog ++ [ConnState.connected] ∧
     (connectTcpCb ncTcpConnecting true 0).state = ConnState.connected) :=
  ⟨c10_connect_cb_ordering.1 (reconnectCb (initNC [udpA]))
      (resolvingCb (reconnectCb (initNC [udpA])) true) (by decide)
      (by decide) rfl,
   c10_connect_cb_ordering.2 ncTcpConnecting
      (connectTcpCb ncTcpConnecting true 0) 0 (by decide) rfl⟩

end NetworkClient
